import Mathlib

/-
Verification of the raytracing-1w renderer against its specification.

Shallow embedding notes:
* Go `float64` arithmetic is modelled by exact real arithmetic (`ℝ`).  The
  verified claims concern control flow and algebra of the renderer, which
  this models faithfully; rounding error of the binary floating-point format
  is out of scope.  Because comparisons on `ℝ` are classical, the embedded
  definitions are `noncomputable`; concrete evaluations in witnesses are done
  by `simp`/`norm_num`.
* Go functions that panic are modelled as `Option`-returning functions where
  `none` is the panic.
* The `vec` package is taken from the current version of `vec/vec.go`
  (the file whose `Hadamard`, `Cross`, `LengthSquared` and `IsNearZero`
  helpers `main.go` and `camera.go` link against); an older copy of the file
  without those helpers is also present in the repository snapshot.
* `math/rand` draws are modelled as explicit oracle parameters (a single
  draw, or a stream `ℕ → Vec3` for the rejection-sampling loop).
-/

open scoped Classical

set_option maxHeartbeats 1000000

/-- 3-component vector of the `vec` package (`vec/vec.go`): `X`, `Y`, `Z`. -/
structure Vec3 where
  X : ℝ
  Y : ℝ
  Z : ℝ

namespace Vec3

/-- `vec.New`. -/
def new (x y z : ℝ) : Vec3 := ⟨x, y, z⟩

/-- The Go zero value `Vec3{}`. -/
def zero : Vec3 := ⟨0, 0, 0⟩

/-- `Vec3.Add`. -/
def add (v other : Vec3) : Vec3 := ⟨v.X + other.X, v.Y + other.Y, v.Z + other.Z⟩

/-- `Vec3.Subtract`. -/
def subtract (v other : Vec3) : Vec3 := ⟨v.X - other.X, v.Y - other.Y, v.Z - other.Z⟩

/-- `Vec3.Scale`. -/
def scale (v : Vec3) (factor : ℝ) : Vec3 := ⟨v.X * factor, v.Y * factor, v.Z * factor⟩

/-- `Vec3.Hadamard` (component-wise product). -/
def hadamard (v other : Vec3) : Vec3 := ⟨v.X * other.X, v.Y * other.Y, v.Z * other.Z⟩

/-- `Vec3.Cross`. -/
def cross (v other : Vec3) : Vec3 :=
  ⟨v.Y * other.Z - v.Z * other.Y, v.Z * other.X - v.X * other.Z, v.X * other.Y - v.Y * other.X⟩

/-- `Vec3.Divide`: implemented as `Scale(1/factor)` in the source. -/
noncomputable def divide (v : Vec3) (factor : ℝ) : Vec3 := v.scale (1 / factor)

/-- `Vec3.LengthSquared`. -/
def lengthSquared (v : Vec3) : ℝ := v.X * v.X + v.Y * v.Y + v.Z * v.Z

/-- `Vec3.Length`: `math.Sqrt(v.LengthSquared())`. -/
noncomputable def length (v : Vec3) : ℝ := Real.sqrt v.lengthSquared

/-- `Vec3.UnitVector`: returns `v` unchanged when its length is exactly `1`
(an optimization in the source), otherwise divides by the length. -/
noncomputable def unitVector (v : Vec3) : Vec3 :=
  if v.length = 1 then v else v.divide v.length

/-- `Vec3.Dot`. -/
def dot (v other : Vec3) : ℝ := v.X * other.X + v.Y * other.Y + v.Z * other.Z

end Vec3

/-- The `Color` wrapper of `main.go`: an RGB triple stored as a `Vec3`. -/
structure Color where
  Vec : Vec3

/-- `newColor` (`main.go`). -/
def newColor (r g b : ℝ) : Color := ⟨⟨r, g, b⟩⟩

/-- `white` (`main.go`). -/
def white : Color := newColor 1 1 1

/-- `black` (`main.go`). -/
def black : Color := newColor 0 0 0

/-- `Ray` (`camera.go`): origin plus direction, not necessarily unit. -/
structure Ray where
  Origin : Vec3
  Direction : Vec3

/-- `Ray.At`: the point `origin + t·direction`. -/
def Ray.at (r : Ray) (t : ℝ) : Vec3 := r.Origin.add (r.Direction.scale t)

/-- `HitRecord` (`main.go`).  The Go struct also stores the hit geometry's
`Material` (an interface value); material behaviour is modelled separately as
explicit scatter functions, so that field is omitted here. -/
structure HitRecord where
  Ray : Ray
  T : ℝ
  Normal : Vec3
  Exterior : Prop
  HitPoint : Vec3

/-- `NewHitRecord` (`main.go` lines 84-106).  `none` models the
`log.Panicf` on a stored normal whose length is farther than `0.02` from
`1`. -/
noncomputable def newHitRecord (ray : Ray) (t : ℝ) (outwardNormal : Vec3)
    (hitPoint : Vec3) : Option HitRecord :=
  let exterior := ray.Direction.dot outwardNormal < 0
  let normal := if exterior then outwardNormal else outwardNormal.scale (-1)
  if |normal.length - 1| > 0.02 then none
  else some { Ray := ray, T := t, Normal := normal, Exterior := exterior, HitPoint := hitPoint }

/-- `reflect` (`main.go`): `d - 2(d·n)n`. -/
def reflect (direction normal : Vec3) : Vec3 :=
  direction.subtract ((normal.scale (direction.dot normal)).scale 2)

/-- `Metal` material (`main.go`): albedo plus fuzz proportion. -/
structure Metal where
  Albedo : Color
  Fuzz : ℝ

/-- `Metal.Scatter` (`main.go` lines 140-151).  The random draw
`vec.RandomUnit()` is passed in explicitly as `randUnit`.  `none` models the
panic on fuzz outside `[0,1]`; otherwise the result is the Go triple
`(scattered, scatteredRay, attenuation)`, with `Ray{}`/`Color{}` zero values
in the absorbed case. -/
noncomputable def metalScatter (m : Metal) (record : HitRecord) (randUnit : Vec3) :
    Option (Bool × Ray × Color) :=
  if m.Fuzz > 1 ∨ m.Fuzz < 0 then none
  else
    let scatterDirection :=
      ((reflect record.Ray.Direction record.Normal).unitVector).add (randUnit.scale m.Fuzz)
    if scatterDirection.dot record.Normal ≤ 0 then
      some (false, ⟨Vec3.zero, Vec3.zero⟩, ⟨Vec3.zero⟩)
    else
      some (true, ⟨record.HitPoint, scatterDirection⟩, m.Albedo)

/-- `Sphere` (`main.go`).  The `Material` interface field is omitted (material
behaviour is modelled as explicit scatter functions). -/
structure Sphere where
  Center : Vec3
  Radius : ℝ

/-- Quadratic coefficient `a = d·d` of `Sphere.Hit` (`main.go` line 240). -/
def sphereA (ray : Ray) : ℝ := ray.Direction.dot ray.Direction

/-- Quadratic coefficient `b = (d·Z)·(-2)` of `Sphere.Hit` (`main.go`
line 242), where `Z = center - origin`. -/
def sphereB (s : Sphere) (ray : Ray) : ℝ :=
  ray.Direction.dot (s.Center.subtract ray.Origin) * (-2)

/-- Quadratic coefficient `c = Z·Z - r²` of `Sphere.Hit` (`main.go`
line 243). -/
def sphereC (s : Sphere) (ray : Ray) : ℝ :=
  (s.Center.subtract ray.Origin).dot (s.Center.subtract ray.Origin) - s.Radius * s.Radius

/-- Discriminant `b² - 4ac` of `Sphere.Hit` (`main.go` line 244). -/
def sphereDisc (s : Sphere) (ray : Ray) : ℝ :=
  sphereB s ray * sphereB s ray - 4 * sphereA ray * sphereC s ray

/-- First root tried by `Sphere.Hit`: `(-b - √disc) / (2a)` (`main.go`
line 249). -/
noncomputable def sphereRoot1 (s : Sphere) (ray : Ray) : ℝ :=
  (-sphereB s ray - Real.sqrt (sphereDisc s ray)) / (2 * sphereA ray)

/-- Fallback root tried by `Sphere.Hit`: `(-b + √disc) / (2a)` (`main.go`
line 252). -/
noncomputable def sphereRoot2 (s : Sphere) (ray : Ray) : ℝ :=
  (-sphereB s ray + Real.sqrt (sphereDisc s ray)) / (2 * sphereA ray)

/-- The root-selection logic of `Sphere.Hit` (`main.go` lines 244-257): no
root when the discriminant is negative; otherwise the first root unless it
lies outside `(tMin, tMax)`, in which case the fallback root, which is also
rejected when outside the interval. -/
noncomputable def sphereRoot (s : Sphere) (ray : Ray) (tMin tMax : ℝ) : Option ℝ :=
  if sphereDisc s ray < 0 then none
  else if sphereRoot1 s ray ≤ tMin ∨ tMax ≤ sphereRoot1 s ray then
    if sphereRoot2 s ray ≤ tMin ∨ tMax ≤ sphereRoot2 s ray then none
    else some (sphereRoot2 s ray)
  else some (sphereRoot1 s ray)

/-- `Sphere.Hit` (`main.go` lines 207-261).  The outer `none` models the
panics (negative radius at line 208, or a non-unit normal inside
`NewHitRecord`); `some none` is a no-hit; `some (some rec)` is a hit. -/
noncomputable def sphereHit (s : Sphere) (ray : Ray) (tMin tMax : ℝ) :
    Option (Option HitRecord) :=
  if s.Radius < 0 then none
  else
    match sphereRoot s ray tMin tMax with
    | none => some none
    | some root =>
      let hitPoint := ray.at root
      let outwardNormal := (hitPoint.subtract s.Center).divide s.Radius
      (newHitRecord ray root outwardNormal hitPoint).map (fun rec => some rec)

/-- The member-iteration loop of `World.Hit` (`main.go` lines 269-278).
Each member's `Hit` is abstracted by the parameter value `record.T` it
reports (`some t` = hit at `t`, `none` = no hit).  Go's nil-member panic
cannot occur here because Lean lists hold total functions. -/
def worldHitGo (ray : Ray) (tMin : ℝ) :
    List (Ray → ℝ → ℝ → Option ℝ) → ℝ → Option ℝ → ℝ × Option ℝ
  | [], closest, best => (closest, best)
  | h :: rest, closest, best =>
    match h ray tMin closest with
    | some t => worldHitGo ray tMin rest t (some t)
    | none => worldHitGo ray tMin rest closest best

/-- `World.Hit` (`main.go` lines 265-280), with `worldHitGo` as the loop:
`closest` starts at `tMax` and shrinks to each reported parameter, and
`best` is the reported parameter of the best hit so far (`closestRecord`;
`none` plays `hitAnything = false`). -/
def worldHit (members : List (Ray → ℝ → ℝ → Option ℝ)) (ray : Ray)
    (tMin tMax : ℝ) : Option ℝ :=
  (worldHitGo ray tMin members tMax none).2

/-- The least element of `ts` strictly inside `(tMin, tMax)`, if any.  This is
the `Hit` behaviour of a well-behaved `Hittable` member whose intersection
parameters along the ray are `ts` (see `sphereRoot_eq_minIn`). -/
noncomputable def minIn (ts : List ℝ) (tMin tMax : ℝ) : Option ℝ :=
  match ts with
  | [] => none
  | t :: rest =>
    let r := minIn rest tMin tMax
    if tMin < t ∧ t < tMax then
      match r with
      | none => some t
      | some u => some (min t u)
    else r

/-- An `Intersectable` member modelled by the list of its intersection
parameters along each ray: its `Hit` reports the nearest parameter strictly
inside the query interval (the contract of `Hittable`, as implemented by
`Sphere.Hit`). -/
noncomputable def memberOfTimes (m : Ray → List ℝ) : Ray → ℝ → ℝ → Option ℝ :=
  fun ray tMin tMax => minIn (m ray) tMin tMax

/-- The background gradient of `Ray.Color` (`camera.go` lines 334-340):
normalize the direction, form the interpolation parameter
`a = 0.5·y + 1`, and blend `white` and light blue `(0.5, 0.7, 1)` with
weights `1 - a` and `a`. -/
noncomputable def backgroundColor (r : Ray) : Color :=
  let unitDirection := r.Direction.unitVector
  let a := 0.5 * unitDirection.Y + 1
  let lightBlue := newColor 0.5 0.7 1
  ⟨(white.Vec.scale (1 - a)).add (lightBlue.Vec.scale a)⟩

/-- `Ray.Color` (`camera.go` lines 318-341).  `hit` models `h.Hit` for the
scene (returning an abstract record `α` on a hit) and `scatter` models
`record.Material.Scatter` on such a record, yielding Go's
`(scattered, scatteredRay, attenuation)` triple. -/
noncomputable def rayColor {α : Type} (hit : Ray → ℝ → ℝ → Option α)
    (scatter : α → Bool × Ray × Color) (r : Ray) (tMin tMax : ℝ) (depth : ℤ) : Color :=
  if h : depth ≤ 0 then black
  else
    match hit r tMin tMax with
    | some record =>
      let res := scatter record
      if res.1 then
        ⟨((rayColor hit scatter res.2.1 tMin tMax (depth - 1)).Vec).hadamard res.2.2.Vec⟩
      else black
    | none => backgroundColor r
termination_by depth.toNat
decreasing_by
  simp only [not_le] at h
  omega

/-- The rejection-sampling loop of `vec.RandomUnit` (current `vec/vec.go`):
draw `draws start`, accept it when its squared length is below `1`
(normalizing the accepted draw), otherwise retry with the next draw.  The
unbounded Go `for` loop is modelled with explicit `fuel`; `none` means the
fuel ran out before a draw was accepted. -/
noncomputable def randomUnitLoop (draws : ℕ → Vec3) (start fuel : ℕ) : Option Vec3 :=
  match fuel with
  | 0 => none
  | f + 1 =>
    let p := draws start
    if p.lengthSquared < 1 then some p.unitVector
    else randomUnitLoop draws (start + 1) f

/-- `CameraOpts` (`camera.go`).  Go `int` fields are modelled as `ℤ`; the
`Out`/`Log` writers and the `Parallel` flag carry no claim content and are
omitted.  `Aspect` is the Go field `AspectRatio`. -/
structure CameraOpts where
  Width : ℤ
  Aspect : ℝ
  VerticalFOVDegrees : ℝ
  SamplesPerPixel : ℤ
  MaxBounces : ℤ
  Position : Vec3
  LookAt : Vec3
  Up : Vec3
  FocusDist : ℝ
  DefocusAngle : ℝ

/-- The `camera` struct (`camera.go`): pixel height, the resolved options,
and the derived basis/defocus vectors.  The cached `viewport` field is
reproduced by `calculateViewport` below. -/
structure Camera where
  height : ℤ
  opts : CameraOpts
  upVec : Vec3
  rightVec : Vec3
  backVec : Vec3
  defocusDiskWidthVec : Vec3
  defocusDiskHeightVec : Vec3

/-- `toRadians` (`camera.go`). -/
noncomputable def toRadians (degrees : ℝ) : ℝ := degrees * Real.pi / 180

/-- Go's conversion `int(x)` from `float64`: truncation toward zero. -/
noncomputable def goTrunc (x : ℝ) : ℤ := if 0 ≤ x then ⌊x⌋ else ⌈x⌉

/-- Defaulted width (`camera.go` lines 79-83): `0` becomes `400`. -/
def resolvedWidth (opts : CameraOpts) : ℤ :=
  if opts.Width = 0 then 400 else opts.Width

/-- Defaulted aspect ratio (`camera.go` lines 85-89): `0` becomes `16/9`. -/
noncomputable def resolvedAspect (opts : CameraOpts) : ℝ :=
  if opts.Aspect = 0 then 16 / 9 else opts.Aspect

/-- Pixel height (`camera.go` lines 91-94):
`int(float64(width) / aspectRatio)`, bumped to `1` when that is `0`. -/
noncomputable def cameraHeight (opts : CameraOpts) : ℤ :=
  let h := goTrunc ((resolvedWidth opts : ℝ) / resolvedAspect opts)
  if h = 0 then 1 else h

/-- Defaulted vertical FOV (`camera.go` lines 96-100): `0` becomes `90`. -/
noncomputable def resolvedVFOV (opts : CameraOpts) : ℝ :=
  if opts.VerticalFOVDegrees = 0 then 90 else opts.VerticalFOVDegrees

/-- Defaulted samples per pixel (`camera.go` lines 102-106): `0` becomes
`100`. -/
def resolvedSamples (opts : CameraOpts) : ℤ :=
  if opts.SamplesPerPixel = 0 then 100 else opts.SamplesPerPixel

/-- Defaulted bounce limit (`camera.go` lines 108-112): `0` becomes `50`. -/
def resolvedMaxBounces (opts : CameraOpts) : ℤ :=
  if opts.MaxBounces = 0 then 50 else opts.MaxBounces

/-- Defaulted look-at target (`camera.go` lines 114-117): when `Position`
is the zero value and equals `LookAt`, the target becomes `(0,0,-1)`. -/
noncomputable def resolvedLookAt (opts : CameraOpts) : Vec3 :=
  if opts.Position = Vec3.zero ∧ opts.Position = opts.LookAt then ⟨0, 0, -1⟩
  else opts.LookAt

/-- Defaulted up hint (`camera.go` lines 122-124): the zero value becomes
`(0,1,0)`. -/
noncomputable def resolvedUp (opts : CameraOpts) : Vec3 :=
  if opts.Up = Vec3.zero then ⟨0, 1, 0⟩ else opts.Up

/-- Defaulted focus distance (`camera.go` lines 133-137): `0` becomes
`|lookAt - position|` (with the defaulted look-at target). -/
noncomputable def resolvedFocusDist (opts : CameraOpts) : ℝ :=
  if opts.FocusDist = 0 then ((resolvedLookAt opts).subtract opts.Position).length
  else opts.FocusDist

/-- The camera built by `NewCamera` once every guard has passed
(`camera.go` lines 146-161): the defaulted options plus the derived basis
and defocus-disk vectors. -/
noncomputable def resolveCamera (opts : CameraOpts) : Camera :=
  let lookAt := resolvedLookAt opts
  let up := resolvedUp opts
  let focusDist := resolvedFocusDist opts
  let backVec := (opts.Position.subtract lookAt).unitVector
  let rightVec := up.cross backVec
  let upVec := backVec.cross rightVec
  let defocusRadius := focusDist * Real.tan (toRadians (opts.DefocusAngle / 2))
  { height := cameraHeight opts
    opts :=
      { opts with
        Width := resolvedWidth opts
        Aspect := resolvedAspect opts
        VerticalFOVDegrees := resolvedVFOV opts
        SamplesPerPixel := resolvedSamples opts
        MaxBounces := resolvedMaxBounces opts
        LookAt := lookAt
        Up := up
        FocusDist := focusDist }
    upVec := upVec
    rightVec := rightVec
    backVec := backVec
    defocusDiskWidthVec := rightVec.scale defocusRadius
    defocusDiskHeightVec := upVec.scale defocusRadius }

/-- `NewCamera` (`camera.go` lines 63-162).  `none` models the panics, in
the source's order: negative width, negative aspect ratio, vertical FOV
outside `[0,180)`, negative sample count, negative bounce limit, position
equal to the (defaulted) look-at target, up hint whose dot product with
`lookAt - position` is exactly `1`, defocus angle outside `[0,180)`, and
negative focus distance.  Zero values are replaced by defaults (the
`resolved*` functions above), never rejected. -/
noncomputable def newCamera (opts : CameraOpts) : Option Camera :=
  if opts.Width < 0 then none
  else if opts.Aspect < 0 then none
  else if opts.VerticalFOVDegrees < 0 ∨ 180 ≤ opts.VerticalFOVDegrees then none
  else if opts.SamplesPerPixel < 0 then none
  else if opts.MaxBounces < 0 then none
  else if opts.Position = resolvedLookAt opts then none
  else if (resolvedUp opts).dot ((resolvedLookAt opts).subtract opts.Position) = 1 then none
  else if opts.DefocusAngle < 0 ∨ 180 ≤ opts.DefocusAngle then none
  else if opts.FocusDist < 0 then none
  else some (resolveCamera opts)

/-- The `viewport` struct (`camera.go`). -/
structure Viewport where
  width : ℝ
  height : ℝ
  center : Vec3
  widthVector : Vec3
  heightVector : Vec3
  pixelDeltaX : Vec3
  pixelDeltaY : Vec3
  upperLeft : Vec3
  firstPixelCenter : Vec3

/-- `calculateViewport` (`camera.go` lines 168-187), cached into the camera
at the end of `NewCamera`. -/
noncomputable def calculateViewport (c : Camera) : Viewport :=
  let verticalFOVRads := toRadians c.opts.VerticalFOVDegrees
  let viewHeight := Real.tan (verticalFOVRads / 2) * 2 * c.opts.FocusDist
  let viewWidth := viewHeight * (c.opts.Width : ℝ) / (c.height : ℝ)
  let widthVector := c.rightVec.scale viewWidth
  let heightVector := c.upVec.scale (-viewHeight)
  let pixelDeltaX := widthVector.divide (c.opts.Width : ℝ)
  let pixelDeltaY := heightVector.divide (c.height : ℝ)
  let upperLeft :=
    ((c.opts.Position.subtract (c.backVec.scale c.opts.FocusDist)).subtract
      (widthVector.divide 2)).subtract (heightVector.divide 2)
  let firstPixelCenter := (upperLeft.add (pixelDeltaX.divide 2)).add (pixelDeltaY.divide 2)
  { width := viewWidth
    height := viewHeight
    center := c.opts.LookAt
    widthVector := widthVector
    heightVector := heightVector
    pixelDeltaX := pixelDeltaX
    pixelDeltaY := pixelDeltaY
    upperLeft := upperLeft
    firstPixelCenter := firstPixelCenter }

lemma Vec3.dot_comm (v w : Vec3) : v.dot w = w.dot v := by
  unfold Vec3.dot; ring

lemma Vec3.neg_one_scale_dot (v w : Vec3) : (v.scale (-1)).dot w = -(v.dot w) := by
  unfold Vec3.scale Vec3.dot; ring

lemma Vec3.dot_self_nonneg (v : Vec3) : 0 ≤ v.dot v := by
  unfold Vec3.dot
  nlinarith [mul_self_nonneg v.X, mul_self_nonneg v.Y, mul_self_nonneg v.Z]

/-- C9: a record produced by `NewHitRecord` stores a normal that opposes the
incoming ray direction; `Exterior` holds exactly when the geometric outward
normal already opposed the ray, the stored normal being the outward normal in
that case and its negation otherwise; the stored normal's length is within
`0.02` of `1`, and construction aborts (panics) precisely when it is not. -/
theorem newHitRecord_spec (ray : Ray) (t : ℝ) (outwardNormal hitPoint : Vec3) :
    (∀ rec, newHitRecord ray t outwardNormal hitPoint = some rec →
      rec.Normal.dot ray.Direction ≤ 0 ∧
      (rec.Exterior ↔ ray.Direction.dot outwardNormal < 0) ∧
      (ray.Direction.dot outwardNormal < 0 → rec.Normal = outwardNormal) ∧
      (0 ≤ ray.Direction.dot outwardNormal → rec.Normal = outwardNormal.scale (-1)) ∧
      |rec.Normal.length - 1| ≤ 0.02) ∧
    (newHitRecord ray t outwardNormal hitPoint = none ↔
      0.02 < |(if ray.Direction.dot outwardNormal < 0 then outwardNormal
               else outwardNormal.scale (-1)).length - 1|) := by
  simp only [newHitRecord]
  by_cases hext : ray.Direction.dot outwardNormal < 0
  · rw [if_pos hext]
    by_cases htol : |outwardNormal.length - 1| > 0.02
    · rw [if_pos htol]
      refine ⟨fun rec h => Option.noConfusion h, iff_of_true rfl htol⟩
    · rw [if_neg htol]
      refine ⟨fun rec h => ?_, iff_of_false (by simp) htol⟩
      have hrec := (Option.some.injEq _ _).mp h
      subst hrec
      refine ⟨?_, Iff.rfl, fun _ => rfl, fun hge => absurd hext (not_lt.mpr hge),
        not_lt.mp htol⟩
      rw [Vec3.dot_comm]
      exact le_of_lt hext
  · rw [if_neg hext]
    by_cases htol : |(outwardNormal.scale (-1)).length - 1| > 0.02
    · rw [if_pos htol]
      refine ⟨fun rec h => Option.noConfusion h, iff_of_true rfl htol⟩
    · rw [if_neg htol]
      refine ⟨fun rec h => ?_, iff_of_false (by simp) htol⟩
      have hrec := (Option.some.injEq _ _).mp h
      subst hrec
      refine ⟨?_, Iff.rfl, fun hlt => absurd hlt hext, fun _ => rfl, not_lt.mp htol⟩
      rw [Vec3.neg_one_scale_dot, Vec3.dot_comm]
      have := not_lt.mp hext
      linarith

/-- Witness for C9: a concrete record construction that does not abort. -/
theorem newHitRecord_spec_witness :
    newHitRecord ⟨⟨0, 0, 0⟩, ⟨0, 0, 1⟩⟩ 1 ⟨0, 0, -1⟩ ⟨0, 0, 0⟩ ≠ none := by
  intro hnone
  have h := (newHitRecord_spec ⟨⟨0, 0, 0⟩, ⟨0, 0, 1⟩⟩ 1 ⟨0, 0, -1⟩ ⟨0, 0, 0⟩).2
  rw [h] at hnone
  have hdot : (Vec3.dot ⟨0, 0, 1⟩ ⟨0, 0, -1⟩ : ℝ) < 0 := by
    unfold Vec3.dot; norm_num
  rw [if_pos hdot] at hnone
  have hlen : (Vec3.length ⟨0, 0, -1⟩ : ℝ) = 1 := by
    unfold Vec3.length Vec3.lengthSquared
    norm_num
  rw [hlen] at hnone
  norm_num at hnone

/-- C6: with fuzz in `[0,1]`, `Metal.Scatter` does not panic; it reports
`scattered = true` exactly when the perturbed reflected direction satisfies
`dot(direction, normal) > 0`, in which case the attenuation is the metal's
albedo and the scattered ray starts at the hit point with that direction;
when `dot(direction, normal) ≤ 0` the ray is reported absorbed. -/
theorem metalScatter_spec (m : Metal) (record : HitRecord) (randUnit : Vec3)
    (hfuzz0 : 0 ≤ m.Fuzz) (hfuzz1 : m.Fuzz ≤ 1) :
    ∃ res, metalScatter m record randUnit = some res ∧
      (res.1 = true ↔
        0 < ((reflect record.Ray.Direction record.Normal).unitVector.add
              (randUnit.scale m.Fuzz)).dot record.Normal) ∧
      (0 < ((reflect record.Ray.Direction record.Normal).unitVector.add
              (randUnit.scale m.Fuzz)).dot record.Normal →
        res = (true, ⟨record.HitPoint,
          (reflect record.Ray.Direction record.Normal).unitVector.add
            (randUnit.scale m.Fuzz)⟩, m.Albedo)) ∧
      (((reflect record.Ray.Direction record.Normal).unitVector.add
          (randUnit.scale m.Fuzz)).dot record.Normal ≤ 0 → res.1 = false) := by
  have hguard : ¬(m.Fuzz > 1 ∨ m.Fuzz < 0) := by
    push_neg
    exact ⟨hfuzz1, hfuzz0⟩
  simp only [metalScatter]
  rw [if_neg hguard]
  by_cases hdot :
      ((reflect record.Ray.Direction record.Normal).unitVector.add
        (randUnit.scale m.Fuzz)).dot record.Normal ≤ 0
  · rw [if_pos hdot]
    refine ⟨_, rfl, ?_, ?_, fun _ => rfl⟩
    · simp only [Bool.false_eq_true, false_iff, not_lt]
      exact hdot
    · intro hpos
      exact absurd hpos (not_lt.mpr hdot)
  · rw [if_neg hdot]
    exact ⟨_, rfl, by simpa using not_le.mp hdot, fun _ => rfl, fun hle => absurd hle hdot⟩

/-- Witness for C6: a concrete fuzz-0 metal scatter that reflects
`(0,0,1)` off normal `(0,0,-1)` into `(0,0,-1)` and scatters. -/
theorem metalScatter_spec_witness :
    metalScatter ⟨newColor 0.8 0.8 0.8, 0⟩
      ⟨⟨⟨0, 0, 0⟩, ⟨0, 0, 1⟩⟩, 1, ⟨0, 0, -1⟩, True, ⟨0, 0, 0⟩⟩ ⟨0, 0, 0⟩ =
      some (true, ⟨⟨0, 0, 0⟩, ⟨0, 0, -1⟩⟩, newColor 0.8 0.8 0.8) := by
  obtain ⟨res, heq, hiff, hpos, habs⟩ :=
    metalScatter_spec ⟨newColor 0.8 0.8 0.8, 0⟩
      ⟨⟨⟨0, 0, 0⟩, ⟨0, 0, 1⟩⟩, 1, ⟨0, 0, -1⟩, True, ⟨0, 0, 0⟩⟩ ⟨0, 0, 0⟩
      le_rfl zero_le_one
  have hrefl : reflect ⟨0, 0, 1⟩ ⟨0, 0, -1⟩ = ⟨0, 0, -1⟩ := by
    unfold reflect Vec3.dot Vec3.scale Vec3.subtract
    norm_num
  have hlen : Vec3.length ⟨0, 0, -1⟩ = 1 := by
    unfold Vec3.length Vec3.lengthSquared
    norm_num
  have hunit : Vec3.unitVector ⟨0, 0, -1⟩ = ⟨0, 0, -1⟩ := by
    unfold Vec3.unitVector
    rw [if_pos hlen]
  have hsd : (Vec3.unitVector (reflect ⟨0, 0, 1⟩ ⟨0, 0, -1⟩)).add
      (Vec3.scale ⟨0, 0, 0⟩ 0) = ⟨0, 0, -1⟩ := by
    rw [hrefl, hunit]
    unfold Vec3.add Vec3.scale
    norm_num
  rw [heq]
  simp only [hsd] at hpos
  have hdotpos : (0 : ℝ) < Vec3.dot ⟨0, 0, -1⟩ ⟨0, 0, -1⟩ := by
    unfold Vec3.dot; norm_num
  rw [hpos (by simpa [hsd] using hdotpos)]

lemma randomUnitLoop_start (draws : ℕ → Vec3) :
    ∀ (fuel start : ℕ) (v : Vec3),
      randomUnitLoop draws start fuel = some v ↔
        ∃ k, k < fuel ∧ (∀ m, m < k → 1 ≤ (draws (start + m)).lengthSquared) ∧
          (draws (start + k)).lengthSquared < 1 ∧ v = (draws (start + k)).unitVector := by
  intro fuel
  induction fuel with
  | zero =>
    intro start v
    simp [randomUnitLoop]
  | succ f ih =>
    intro start v
    simp only [randomUnitLoop]
    by_cases hacc : (draws start).lengthSquared < 1
    · rw [if_pos hacc]
      constructor
      · intro h
        refine ⟨0, Nat.succ_pos f, fun m hm => absurd hm (Nat.not_lt_zero m),
          by simpa using hacc, ?_⟩
        simpa using ((Option.some.injEq _ _).mp h).symm
      · rintro ⟨k, _, hbefore, _, hv⟩
        cases k with
        | zero =>
          simp only [Nat.add_zero] at hv
          rw [hv]
        | succ k' =>
          have h0 := hbefore 0 (Nat.succ_pos k')
          simp only [Nat.add_zero] at h0
          linarith
    · rw [if_neg hacc]
      rw [ih (start + 1) v]
      constructor
      · rintro ⟨k, hk, hbef, hlt, hv⟩
        have hidx : start + 1 + k = start + (k + 1) := by omega
        rw [hidx] at hlt hv
        refine ⟨k + 1, by omega, ?_, hlt, hv⟩
        intro m hm
        cases m with
        | zero =>
          simpa using not_lt.mp hacc
        | succ m' =>
          have h' := hbef m' (by omega)
          have hidx' : start + 1 + m' = start + (m' + 1) := by omega
          rw [hidx'] at h'
          exact h'
      · rintro ⟨k, hk, hbef, hlt, hv⟩
        cases k with
        | zero =>
          simp only [Nat.add_zero] at hlt
          exact absurd hlt hacc
        | succ k' =>
          have hidx : start + (k' + 1) = start + 1 + k' := by omega
          rw [hidx] at hlt hv
          refine ⟨k', by omega, ?_, hlt, hv⟩
          intro m hm
          have h' := hbef (m + 1) (by omega)
          have hidx' : start + (m + 1) = start + 1 + m := by omega
          rw [hidx'] at h'
          exact h'

/-- C5: the rejection-sampling loop of `vec.RandomUnit` succeeds with value
`v` exactly when some draw within the fuel bound is the first whose squared
length is below `1` — every earlier draw has squared length at least `1`
(so a draw with squared length `≥ 1` is never accepted), the accepted draw
has squared length below `1` (a comparison on the squared length only), and
`v` is that draw normalized. -/
theorem randomUnitLoop_spec (draws : ℕ → Vec3) (fuel : ℕ) (v : Vec3) :
    randomUnitLoop draws 0 fuel = some v ↔
      ∃ k, k < fuel ∧ (∀ m, m < k → 1 ≤ (draws m).lengthSquared) ∧
        (draws k).lengthSquared < 1 ∧ v = (draws k).unitVector := by
  have h := randomUnitLoop_start draws fuel 0 v
  simpa using h

/-- C3: `Ray.Color` returns black when the depth budget is exhausted
(`depth ≤ 0`); on a hit whose material absorbs the ray it returns black; on
a hit whose material scatters it returns the Hadamard product of the
attenuation with the color of the scattered ray at `depth - 1`.  The
recursion is total (it is defined by well-founded recursion on the depth
counter, so it terminates within `depth` scatter events). -/
theorem rayColor_spec {α : Type} (hit : Ray → ℝ → ℝ → Option α)
    (scatter : α → Bool × Ray × Color) (r : Ray) (tMin tMax : ℝ) (depth : ℤ) :
    (depth ≤ 0 → rayColor hit scatter r tMin tMax depth = black) ∧
    (0 < depth → ∀ rec, hit r tMin tMax = some rec →
      ((scatter rec).1 = false → rayColor hit scatter r tMin tMax depth = black) ∧
      ((scatter rec).1 = true → rayColor hit scatter r tMin tMax depth =
        ⟨((rayColor hit scatter (scatter rec).2.1 tMin tMax (depth - 1)).Vec).hadamard
          (scatter rec).2.2.Vec⟩)) := by
  constructor
  · intro h
    rw [rayColor, dif_pos h]
  · intro hpos rec hrec
    constructor
    · intro hfalse
      rw [rayColor, dif_neg (not_le.mpr hpos), hrec]
      simp [hfalse]
    · intro htrue
      rw [rayColor, dif_neg (not_le.mpr hpos), hrec]
      simp [htrue]

/-- Witness for C3: exhausted depth yields black on a concrete input. -/
theorem rayColor_spec_witness :
    rayColor (fun _ _ _ => (none : Option Unit))
      (fun _ => (false, ⟨Vec3.zero, Vec3.zero⟩, black))
      ⟨Vec3.zero, ⟨0, 0, 1⟩⟩ 0.001 1000 0 = black :=
  (rayColor_spec (fun _ _ _ => (none : Option Unit))
    (fun _ => (false, ⟨Vec3.zero, Vec3.zero⟩, black))
    ⟨Vec3.zero, ⟨0, 0, 1⟩⟩ 0.001 1000 0).1 le_rfl

/-- C4 (code bug): on a miss, the code computes the interpolation parameter
as `a = 0.5·y + 1`, mapping the normalized vertical component's range
`[-1,1]` onto `[0.5,1.5]`, not onto `[0,1]` as the spec (and the code's own
comment) state.  For the unit direction `(0,1,0)` (`y = 1`) the code yields
`(0.25, 0.55, 1.0)` instead of the light blue `(0.5, 0.7, 1.0)` demanded by
a `[-1,1] → [0,1]` remap. -/
theorem rayColor_background_param_bug :
    rayColor (fun _ _ _ => (none : Option Unit))
      (fun _ => (false, ⟨Vec3.zero, Vec3.zero⟩, black))
      ⟨⟨0, 0, 0⟩, ⟨0, 1, 0⟩⟩ 0.001 1000 1 = ⟨⟨0.25, 0.55, 1⟩⟩ ∧
    (⟨⟨0.25, 0.55, 1⟩⟩ : Color) ≠ ⟨⟨0.5, 0.7, 1⟩⟩ := by
  constructor
  · rw [rayColor, dif_neg (by norm_num)]
    show backgroundColor _ = _
    have hlen : Vec3.length ⟨0, 1, 0⟩ = 1 := by
      unfold Vec3.length Vec3.lengthSquared
      norm_num
    have hunit : Vec3.unitVector ⟨0, 1, 0⟩ = ⟨0, 1, 0⟩ := by
      unfold Vec3.unitVector
      rw [if_pos hlen]
    simp only [backgroundColor, hunit]
    unfold white newColor Vec3.scale Vec3.add
    norm_num
  · intro h
    have h' := congrArg (fun c => c.Vec.Y) h
    norm_num at h'

lemma Real_sqrt_four : Real.sqrt 4 = 2 := by
  rw [show (4 : ℝ) = 2 ^ 2 by norm_num, Real.sqrt_sq (by norm_num : (0 : ℝ) ≤ 2)]

lemma sphereRoot1_le_sphereRoot2 (s : Sphere) (ray : Ray) :
    sphereRoot1 s ray ≤ sphereRoot2 s ray := by
  unfold sphereRoot1 sphereRoot2
  rcases (Vec3.dot_self_nonneg ray.Direction).lt_or_eq with ha | ha
  · have h2a : (0 : ℝ) < 2 * sphereA ray := by
      unfold sphereA
      linarith
    have hs : 0 ≤ Real.sqrt (sphereDisc s ray) := Real.sqrt_nonneg _
    gcongr
    linarith
  · have h2a : 2 * sphereA ray = 0 := by
      unfold sphereA
      linarith
    rw [h2a, div_zero, div_zero]

lemma sphereRoot1_is_root (s : Sphere) (ray : Ray) (ha : 0 < sphereA ray)
    (hd : 0 ≤ sphereDisc s ray) :
    sphereA ray * sphereRoot1 s ray ^ 2 + sphereB s ray * sphereRoot1 s ray +
      sphereC s ray = 0 := by
  have hs : Real.sqrt (sphereDisc s ray) ^ 2 = sphereDisc s ray := Real.sq_sqrt hd
  have h2a : (2 : ℝ) * sphereA ray ≠ 0 := by positivity
  unfold sphereRoot1
  field_simp
  nlinarith [hs, sphereDisc.eq_def s ray]

lemma sphereRoot2_is_root (s : Sphere) (ray : Ray) (ha : 0 < sphereA ray)
    (hd : 0 ≤ sphereDisc s ray) :
    sphereA ray * sphereRoot2 s ray ^ 2 + sphereB s ray * sphereRoot2 s ray +
      sphereC s ray = 0 := by
  have hs : Real.sqrt (sphereDisc s ray) ^ 2 = sphereDisc s ray := Real.sq_sqrt hd
  have h2a : (2 : ℝ) * sphereA ray ≠ 0 := by positivity
  unfold sphereRoot2
  field_simp
  nlinarith [hs, sphereDisc.eq_def s ray]

lemma newHitRecord_T (ray : Ray) (t : ℝ) (outwardNormal hitPoint : Vec3)
    (rec : HitRecord) (h : newHitRecord ray t outwardNormal hitPoint = some rec) :
    rec.T = t := by
  simp only [newHitRecord] at h
  split_ifs at h
  all_goals try exact Option.noConfusion h
  all_goals exact (congrArg HitRecord.T ((Option.some.injEq _ _).mp h)).symm

/-- C1: for a sphere with non-negative radius, `Sphere.Hit` reports no hit
when the discriminant is negative; otherwise it selects the smaller root
first (`sphereRoot1 ≤ sphereRoot2` always, since `a = d·d ≥ 0`), falling
back to the larger root exactly when the smaller lies outside the open
interval `(tMin, tMax)`; any reported parameter lies strictly inside the
interval, is a root of the intersection quadratic (for a non-degenerate
direction), and is the `T` stored in the returned hit record. -/
theorem sphereHit_spec (s : Sphere) (ray : Ray) (tMin tMax : ℝ)
    (hrad : 0 ≤ s.Radius) :
    (sphereDisc s ray < 0 → sphereRoot s ray tMin tMax = none) ∧
    sphereRoot1 s ray ≤ sphereRoot2 s ray ∧
    (0 ≤ sphereDisc s ray → sphereRoot s ray tMin tMax =
      (if tMin < sphereRoot1 s ray ∧ sphereRoot1 s ray < tMax then
        some (sphereRoot1 s ray)
       else if tMin < sphereRoot2 s ray ∧ sphereRoot2 s ray < tMax then
        some (sphereRoot2 s ray)
       else none)) ∧
    (∀ t, sphereRoot s ray tMin tMax = some t →
      (tMin < t ∧ t < tMax) ∧
      (0 < sphereA ray →
        sphereA ray * t ^ 2 + sphereB s ray * t + sphereC s ray = 0)) ∧
    (∀ rec, sphereHit s ray tMin tMax = some (some rec) →
      sphereRoot s ray tMin tMax = some rec.T) := by
  have hinterval : ∀ x : ℝ, ¬(x ≤ tMin ∨ tMax ≤ x) ↔ (tMin < x ∧ x < tMax) := by
    intro x
    rw [not_or, not_le, not_le]
  refine ⟨?_, sphereRoot1_le_sphereRoot2 s ray, ?_, ?_, ?_⟩
  · intro hneg
    unfold sphereRoot
    rw [if_pos hneg]
  · intro hd
    unfold sphereRoot
    rw [if_neg (not_lt.mpr hd)]
    by_cases hout1 : sphereRoot1 s ray ≤ tMin ∨ tMax ≤ sphereRoot1 s ray
    · rw [if_pos hout1, if_neg (fun hc => (hinterval _).mpr hc hout1)]
      by_cases hout2 : sphereRoot2 s ray ≤ tMin ∨ tMax ≤ sphereRoot2 s ray
      · rw [if_pos hout2, if_neg (fun hc => (hinterval _).mpr hc hout2)]
      · rw [if_neg hout2, if_pos ((hinterval _).mp hout2)]
    · rw [if_neg hout1, if_pos ((hinterval _).mp hout1)]
  · intro t ht
    unfold sphereRoot at ht
    by_cases hneg : sphereDisc s ray < 0
    · rw [if_pos hneg] at ht
      exact Option.noConfusion ht
    · rw [if_neg hneg] at ht
      have hd : 0 ≤ sphereDisc s ray := not_lt.mp hneg
      by_cases hout1 : sphereRoot1 s ray ≤ tMin ∨ tMax ≤ sphereRoot1 s ray
      · rw [if_pos hout1] at ht
        by_cases hout2 : sphereRoot2 s ray ≤ tMin ∨ tMax ≤ sphereRoot2 s ray
        · rw [if_pos hout2] at ht
          exact Option.noConfusion ht
        · rw [if_neg hout2] at ht
          have hteq := ((Option.some.injEq _ _).mp ht).symm
          subst hteq
          exact ⟨(hinterval _).mp hout2, fun ha => sphereRoot2_is_root s ray ha hd⟩
      · rw [if_neg hout1] at ht
        have hteq := ((Option.some.injEq _ _).mp ht).symm
        subst hteq
        exact ⟨(hinterval _).mp hout1, fun ha => sphereRoot1_is_root s ray ha hd⟩
  · intro rec hrec
    unfold sphereHit at hrec
    rw [if_neg (not_lt.mpr hrad)] at hrec
    rcases hroot : sphereRoot s ray tMin tMax with _ | root
    · rw [hroot] at hrec
      have := (Option.some.injEq _ _).mp hrec
      exact Option.noConfusion this
    · rw [hroot] at hrec
      simp only [Option.map_eq_some'] at hrec
      obtain ⟨a, ha, haa⟩ := hrec
      have hrecT := newHitRecord_T _ _ _ _ _ ha
      have harec : a = rec := (Option.some.injEq _ _).mp haa
      rw [← harec, hrecT]

/-- Witness for C1: a ray from `(0,0,-2)` toward the unit sphere at the
origin hits at `t = 1` (the smaller root), inside the interval `(0, 10)`. -/
theorem sphereHit_spec_witness :
    sphereRoot ⟨⟨0, 0, 0⟩, 1⟩ ⟨⟨0, 0, -2⟩, ⟨0, 0, 1⟩⟩ 0 10 = some 1 := by
  obtain ⟨_, _, h3, _, _⟩ :=
    sphereHit_spec ⟨⟨0, 0, 0⟩, 1⟩ ⟨⟨0, 0, -2⟩, ⟨0, 0, 1⟩⟩ 0 10 (by norm_num)
  have hdisc : sphereDisc ⟨⟨0, 0, 0⟩, 1⟩ ⟨⟨0, 0, -2⟩, ⟨0, 0, 1⟩⟩ = 4 := by
    unfold sphereDisc sphereA sphereB sphereC Vec3.dot Vec3.subtract
    norm_num
  have hr1 : sphereRoot1 ⟨⟨0, 0, 0⟩, 1⟩ ⟨⟨0, 0, -2⟩, ⟨0, 0, 1⟩⟩ = 1 := by
    unfold sphereRoot1
    rw [hdisc, Real_sqrt_four]
    unfold sphereA sphereB Vec3.dot Vec3.subtract
    norm_num
  rw [h3 (by rw [hdisc]; norm_num), hr1, if_pos (by norm_num : (0:ℝ) < 1 ∧ (1:ℝ) < 10)]

lemma minIn_eq_none_iff (tMin tMax : ℝ) :
    ∀ ts : List ℝ, minIn ts tMin tMax = none ↔ ∀ u ∈ ts, ¬(tMin < u ∧ u < tMax) := by
  intro ts
  induction ts with
  | nil => simp [minIn]
  | cons t0 rest ih =>
    simp only [minIn]
    by_cases hin : tMin < t0 ∧ t0 < tMax
    · rw [if_pos hin]
      rcases hrest : minIn rest tMin tMax with _ | u0
      · simp only [List.mem_cons]
        constructor
        · intro h
          exact Option.noConfusion h
        · intro h
          exact absurd hin (h t0 (Or.inl rfl))
      · simp only [List.mem_cons]
        constructor
        · intro h
          exact Option.noConfusion h
        · intro h
          exact absurd hin (h t0 (Or.inl rfl))
    · rw [if_neg hin]
      rw [ih]
      constructor
      · intro h u hu
        rcases List.mem_cons.mp hu with rfl | hu'
        · exact hin
        · exact h u hu'
      · intro h u hu
        exact h u (List.mem_cons_of_mem t0 hu)

lemma minIn_eq_some_iff (tMin tMax : ℝ) :
    ∀ (ts : List ℝ) (t : ℝ), minIn ts tMin tMax = some t ↔
      (t ∈ ts ∧ (tMin < t ∧ t < tMax) ∧ ∀ u ∈ ts, tMin < u → u < tMax → t ≤ u) := by
  intro ts
  induction ts with
  | nil => simp [minIn]
  | cons t0 rest ih =>
    intro t
    simp only [minIn]
    by_cases hin : tMin < t0 ∧ t0 < tMax
    · rw [if_pos hin]
      rcases hrest : minIn rest tMin tMax with _ | u0
      · have hnone := (minIn_eq_none_iff tMin tMax rest).mp hrest
        constructor
        · intro h
          have ht : t0 = t := (Option.some.injEq _ _).mp h
          subst ht
          refine ⟨List.mem_cons_self t0 rest, hin, ?_⟩
          intro u hu hu1 hu2
          rcases List.mem_cons.mp hu with rfl | hu'
          · exact le_refl u
          · exact absurd ⟨hu1, hu2⟩ (hnone u hu')
        · rintro ⟨hmem, hbounds, hmin⟩
          rcases List.mem_cons.mp hmem with rfl | hmem'
          · rfl
          · exact absurd hbounds (hnone t hmem')
      · obtain ⟨hu0mem, hu0b, hu0min⟩ := (ih u0).mp hrest
        constructor
        · intro h
          have ht : min t0 u0 = t := (Option.some.injEq _ _).mp h
          subst ht
          constructor
          · rcases min_cases t0 u0 with ⟨hm, _⟩ | ⟨hm, _⟩
            · rw [hm]
              exact List.mem_cons_self t0 rest
            · rw [hm]
              exact List.mem_cons_of_mem t0 hu0mem
          constructor
          · rcases min_cases t0 u0 with ⟨hm, _⟩ | ⟨hm, _⟩ <;> rw [hm]
            · exact hin
            · exact hu0b
          · intro u hu hu1 hu2
            rcases List.mem_cons.mp hu with rfl | hu'
            · exact min_le_left _ _
            · exact le_trans (le_trans (min_le_right t0 u0) (hu0min u hu' hu1 hu2))
                le_rfl
        · rintro ⟨hmem, hbounds, hmin⟩
          have hle0 : t ≤ t0 := hmin t0 (List.mem_cons_self t0 rest) hin.1 hin.2
          have hleu : t ≤ u0 := hmin u0 (List.mem_cons_of_mem t0 hu0mem) hu0b.1 hu0b.2
          rcases List.mem_cons.mp hmem with rfl | hmem'
          · show some (min t u0) = some t
            rw [min_eq_left hleu]
          · have hge : u0 ≤ t := hu0min t hmem' hbounds.1 hbounds.2
            have htu : t = u0 := le_antisymm hleu hge
            subst htu
            show some (min t0 t) = some t
            rw [min_eq_right hle0]
    · rw [if_neg hin]
      rw [ih]
      constructor
      · rintro ⟨hmem, hbounds, hmin⟩
        refine ⟨List.mem_cons_of_mem t0 hmem, hbounds, ?_⟩
        intro u hu hu1 hu2
        rcases List.mem_cons.mp hu with rfl | hu'
        · exact absurd ⟨hu1, hu2⟩ hin
        · exact hmin u hu' hu1 hu2
      · rintro ⟨hmem, hbounds, hmin⟩
        rcases List.mem_cons.mp hmem with rfl | hmem'
        · exact absurd hbounds hin
        · exact ⟨hmem', hbounds, fun u hu hu1 hu2 =>
            hmin u (List.mem_cons_of_mem t0 hu) hu1 hu2⟩

lemma minIn_append_none (tMin c : ℝ) (xs ys : List ℝ)
    (hx : minIn xs tMin c = none) :
    minIn (xs ++ ys) tMin c = minIn ys tMin c := by
  rcases hr : minIn ys tMin c with _ | t
  · rw [minIn_eq_none_iff]
    intro u hu
    rcases List.mem_append.mp hu with hu' | hu'
    · exact (minIn_eq_none_iff tMin c _).mp hx u hu'
    · exact (minIn_eq_none_iff tMin c _).mp hr u hu'
  · rw [minIn_eq_some_iff]
    obtain ⟨hmem, hb, hmin⟩ := (minIn_eq_some_iff tMin c _ t).mp hr
    refine ⟨List.mem_append_right _ hmem, hb, ?_⟩
    intro u hu h1 h2
    rcases List.mem_append.mp hu with hu' | hu'
    · exact absurd ⟨h1, h2⟩ ((minIn_eq_none_iff tMin c _).mp hx u hu')
    · exact hmin u hu' h1 h2

lemma minIn_append_some (tMin c : ℝ) (xs ys : List ℝ) (t1 : ℝ)
    (hx : minIn xs tMin c = some t1) :
    minIn (xs ++ ys) tMin c =
      (match minIn ys tMin t1 with
       | some t2 => some t2
       | none => some t1) := by
  obtain ⟨h1mem, ⟨h1a, h1b⟩, h1min⟩ := (minIn_eq_some_iff tMin c _ t1).mp hx
  rcases hr : minIn ys tMin t1 with _ | t2
  · show minIn (xs ++ ys) tMin c = some t1
    rw [minIn_eq_some_iff]
    refine ⟨List.mem_append_left _ h1mem, ⟨h1a, h1b⟩, ?_⟩
    intro u hu hu1 hu2
    rcases List.mem_append.mp hu with hu' | hu'
    · exact h1min u hu' hu1 hu2
    · rcases le_or_lt t1 u with h | h
      · exact h
      · exact absurd ⟨hu1, h⟩ ((minIn_eq_none_iff tMin t1 _).mp hr u hu')
  · obtain ⟨h2mem, ⟨h2a, h2b⟩, h2min⟩ := (minIn_eq_some_iff tMin t1 _ t2).mp hr
    show minIn (xs ++ ys) tMin c = some t2
    rw [minIn_eq_some_iff]
    refine ⟨List.mem_append_right _ h2mem, ⟨h2a, lt_trans h2b h1b⟩, ?_⟩
    intro u hu hu1 hu2
    rcases List.mem_append.mp hu with hu' | hu'
    · exact le_trans (le_of_lt h2b) (h1min u hu' hu1 hu2)
    · rcases le_or_lt t1 u with h | h
      · exact le_trans (le_of_lt h2b) h
      · exact h2min u hu' hu1 h

lemma worldHitGo_eq_minIn (ray : Ray) (tMin : ℝ) :
    ∀ (ms : List (Ray → List ℝ)) (c : ℝ) (b : Option ℝ),
      worldHitGo ray tMin (ms.map memberOfTimes) c b =
      (match minIn ((ms.map (fun m => m ray)).flatten) tMin c with
       | some t => (t, some t)
       | none => (c, b)) := by
  intro ms
  induction ms with
  | nil =>
    intro c b
    simp [worldHitGo, minIn]
  | cons m rest ih =>
    intro c b
    simp only [List.map_cons, worldHitGo, List.flatten_cons]
    rcases hm : memberOfTimes m ray tMin c with _ | t1
    · simp only [hm]
      rw [ih c b, minIn_append_none tMin c _ _ hm]
    · simp only [hm]
      rw [ih t1 (some t1), minIn_append_some tMin c _ _ t1 hm]
      rcases hj : minIn ((rest.map (fun m => m ray)).flatten) tMin t1 with _ | t2 <;> rw [hj]

/-- C2: aggregating members whose `Hit` reports the nearest intersection
parameter strictly inside the query interval, `World.Hit` (which shrinks the
upper search bound to the best parameter found so far) returns exactly the
minimum intersection parameter of all members inside `(tMin, tMax)`: it
returns no hit iff no member hits in the range, and a returned parameter is
reported by some member and is at most every member's reported parameter
(never a farther member's hit). -/
theorem worldHit_spec (ms : List (Ray → List ℝ)) (ray : Ray) (tMin tMax : ℝ) :
    worldHit (ms.map memberOfTimes) ray tMin tMax =
      minIn ((ms.map (fun m => m ray)).flatten) tMin tMax ∧
    (worldHit (ms.map memberOfTimes) ray tMin tMax = none ↔
      ∀ m ∈ ms, memberOfTimes m ray tMin tMax = none) ∧
    (∀ t, worldHit (ms.map memberOfTimes) ray tMin tMax = some t →
      (∃ m ∈ ms, memberOfTimes m ray tMin tMax = some t) ∧
      ∀ m ∈ ms, ∀ u, memberOfTimes m ray tMin tMax = some u → t ≤ u) := by
  have hmain : worldHit (ms.map memberOfTimes) ray tMin tMax =
      minIn ((ms.map (fun m => m ray)).flatten) tMin tMax := by
    unfold worldHit
    rw [worldHitGo_eq_minIn ray tMin ms tMax none]
    rcases hx : minIn ((ms.map (fun m => m ray)).flatten) tMin tMax with _ | t <;> rw [hx]
  have hmemflat : ∀ u : ℝ, u ∈ (ms.map (fun m => m ray)).flatten ↔
      ∃ m ∈ ms, u ∈ m ray := by
    intro u
    rw [List.mem_flatten]
    constructor
    · rintro ⟨l, hl, hu⟩
      obtain ⟨m, hm, rfl⟩ := List.mem_map.mp hl
      exact ⟨m, hm, hu⟩
    · rintro ⟨m, hm, hu⟩
      exact ⟨m ray, List.mem_map.mpr ⟨m, hm, rfl⟩, hu⟩
  refine ⟨hmain, ?_, ?_⟩
  · rw [hmain, minIn_eq_none_iff]
    constructor
    · intro h m hm
      show minIn (m ray) tMin tMax = none
      rw [minIn_eq_none_iff]
      intro u hu
      exact h u ((hmemflat u).mpr ⟨m, hm, hu⟩)
    · intro h u hu
      obtain ⟨m, hm, hu'⟩ := (hmemflat u).mp hu
      exact (minIn_eq_none_iff tMin tMax _).mp (h m hm) u hu'
  · intro t ht
    rw [hmain] at ht
    obtain ⟨hmem, hb, hmin⟩ := (minIn_eq_some_iff tMin tMax _ t).mp ht
    obtain ⟨m, hm, htm⟩ := (hmemflat t).mp hmem
    constructor
    · refine ⟨m, hm, ?_⟩
      show minIn (m ray) tMin tMax = some t
      rw [minIn_eq_some_iff]
      refine ⟨htm, hb, ?_⟩
      intro u hu hu1 hu2
      exact hmin u ((hmemflat u).mpr ⟨m, hm, hu⟩) hu1 hu2
    · intro m' hm' u hu
      obtain ⟨humem, hub, _⟩ := (minIn_eq_some_iff tMin tMax _ u).mp hu
      exact hmin u ((hmemflat u).mpr ⟨m', hm', humem⟩) hub.1 hub.2

lemma newCamera_eq_none_iff (opts : CameraOpts) :
    newCamera opts = none ↔
      (opts.Width < 0 ∨ opts.Aspect < 0 ∨
       opts.VerticalFOVDegrees < 0 ∨ 180 ≤ opts.VerticalFOVDegrees ∨
       opts.SamplesPerPixel < 0 ∨ opts.MaxBounces < 0 ∨
       opts.Position = resolvedLookAt opts ∨
       (resolvedUp opts).dot ((resolvedLookAt opts).subtract opts.Position) = 1 ∨
       opts.DefocusAngle < 0 ∨ 180 ≤ opts.DefocusAngle ∨
       opts.FocusDist < 0) := by
  unfold newCamera
  split_ifs with h1 h2 h3 h4 h5 h6 h7 h8 h9
  all_goals first
    | exact iff_of_true rfl (by tauto)
    | exact iff_of_false (by simp) (by tauto)

lemma newCamera_eq_some (opts : CameraOpts) (cam : Camera)
    (h : newCamera opts = some cam) : cam = resolveCamera opts := by
  unfold newCamera at h
  split_ifs at h
  exact ((Option.some.injEq _ _).mp h).symm

/-- C10 (amended): `NewCamera` aborts exactly on strictly negative `Width`,
`AspectRatio`, `SamplesPerPixel`, `MaxBounces` or `FocusDist`, vertical FOV
or defocus angle outside `[0,180)`, a `Position` equal to the (defaulted)
`LookAt`, or a (defaulted) `Up` whose dot product with `LookAt - Position`
is exactly `1`; zero values of `Width`, `AspectRatio`, `VerticalFOVDegrees`,
`SamplesPerPixel` and `MaxBounces` are silently replaced by the defaults
`400`, `16/9`, `90`, `100` and `50`, a zero `Up` becomes `(0,1,0)`, a zero
`FocusDist` becomes `|LookAt - Position|`, and a zero `Position` equal to a
zero `LookAt` makes `LookAt` `(0,0,-1)`. -/
theorem newCamera_abort_conditions (opts : CameraOpts) :
    (newCamera opts = none ↔
      (opts.Width < 0 ∨ opts.Aspect < 0 ∨ opts.SamplesPerPixel < 0 ∨
       opts.MaxBounces < 0 ∨ opts.FocusDist < 0 ∨
       opts.VerticalFOVDegrees < 0 ∨ 180 ≤ opts.VerticalFOVDegrees ∨
       opts.DefocusAngle < 0 ∨ 180 ≤ opts.DefocusAngle ∨
       opts.Position = resolvedLookAt opts ∨
       (resolvedUp opts).dot ((resolvedLookAt opts).subtract opts.Position) = 1)) ∧
    (∀ cam, newCamera opts = some cam →
      cam.opts.Width = (if opts.Width = 0 then 400 else opts.Width) ∧
      cam.opts.Aspect = (if opts.Aspect = 0 then 16 / 9 else opts.Aspect) ∧
      cam.opts.VerticalFOVDegrees =
        (if opts.VerticalFOVDegrees = 0 then 90 else opts.VerticalFOVDegrees) ∧
      cam.opts.SamplesPerPixel =
        (if opts.SamplesPerPixel = 0 then 100 else opts.SamplesPerPixel) ∧
      cam.opts.MaxBounces = (if opts.MaxBounces = 0 then 50 else opts.MaxBounces) ∧
      cam.opts.LookAt =
        (if opts.Position = Vec3.zero ∧ opts.Position = opts.LookAt then ⟨0, 0, -1⟩
         else opts.LookAt) ∧
      cam.opts.Up = (if opts.Up = Vec3.zero then ⟨0, 1, 0⟩ else opts.Up) ∧
      cam.opts.FocusDist =
        (if opts.FocusDist = 0 then ((resolvedLookAt opts).subtract opts.Position).length
         else opts.FocusDist) ∧
      cam.opts.Position = opts.Position ∧
      cam.opts.DefocusAngle = opts.DefocusAngle) := by
  constructor
  · rw [newCamera_eq_none_iff]
    tauto
  · intro cam h
    have hc := newCamera_eq_some opts cam h
    subst hc
    exact ⟨rfl, rfl, rfl, rfl, rfl, rfl, rfl, rfl, rfl, rfl⟩

/-- Counterexample for C10: with `Position = LookAt = (1,0,0)` and every
other field zero, none of the abort conditions listed by the claim holds,
yet `NewCamera` panics (the claim's "aborts only on" list is incomplete). -/
theorem newCamera_abort_claim_counterexample :
    newCamera ⟨0, 0, 0, 0, 0, ⟨1, 0, 0⟩, ⟨1, 0, 0⟩, ⟨0, 0, 0⟩, 0, 0⟩ = none ∧
    ¬((0 : ℤ) < 0) ∧ ¬((0 : ℝ) < 0) ∧
    ¬((0 : ℝ) < 0 ∨ (180 : ℝ) ≤ 0) := by
  refine ⟨?_, by norm_num, by norm_num, by norm_num⟩
  rw [newCamera_eq_none_iff]
  have hlook : resolvedLookAt ⟨0, 0, 0, 0, 0, ⟨1, 0, 0⟩, ⟨1, 0, 0⟩, ⟨0, 0, 0⟩, 0, 0⟩ =
      ⟨1, 0, 0⟩ := by
    unfold resolvedLookAt
    rw [if_neg]
    intro hcon
    have := hcon.1
    rw [Vec3.zero] at this
    simp only [Vec3.mk.injEq] at this
    norm_num at this
  refine Or.inr (Or.inr (Or.inr (Or.inr (Or.inr (Or.inr (Or.inl ?_))))))
  rw [hlook]

lemma floor_three_halves : ⌊(3 : ℝ) / 2⌋ = 1 := by
  rw [Int.floor_eq_iff]
  constructor <;> norm_num

lemma round_three_halves : round ((3 : ℝ) / 2) = 2 := by
  rw [round_eq]
  have h : (3 : ℝ) / 2 + 1 / 2 = ((2 : ℤ) : ℝ) := by norm_num
  rw [h, Int.floor_intCast]

lemma newCamera_opts8 :
    newCamera ⟨3, 2, 0, 0, 0, ⟨0, 0, 0⟩, ⟨0, 0, 0⟩, ⟨0, 0, 0⟩, 0, 0⟩ =
      some (resolveCamera ⟨3, 2, 0, 0, 0, ⟨0, 0, 0⟩, ⟨0, 0, 0⟩, ⟨0, 0, 0⟩, 0, 0⟩) := by
  have hlook : resolvedLookAt ⟨3, 2, 0, 0, 0, ⟨0, 0, 0⟩, ⟨0, 0, 0⟩, ⟨0, 0, 0⟩, 0, 0⟩ =
      ⟨0, 0, -1⟩ := by
    simp [resolvedLookAt, Vec3.zero]
  have hup : resolvedUp ⟨3, 2, 0, 0, 0, ⟨0, 0, 0⟩, ⟨0, 0, 0⟩, ⟨0, 0, 0⟩, 0, 0⟩ =
      ⟨0, 1, 0⟩ := by
    simp [resolvedUp, Vec3.zero]
  unfold newCamera
  norm_num [hlook, hup, Vec3.dot, Vec3.subtract, Vec3.mk.injEq]

lemma resolveCamera_opts8_height :
    (resolveCamera ⟨3, 2, 0, 0, 0, ⟨0, 0, 0⟩, ⟨0, 0, 0⟩, ⟨0, 0, 0⟩, 0, 0⟩).height = 1 := by
  show cameraHeight _ = 1
  simp only [cameraHeight, goTrunc, resolvedWidth, resolvedAspect]
  norm_num [floor_three_halves]

/-- C8 (amended): for positive width and aspect ratio accepted by camera
construction, the derived pixel height is the float-to-int *truncation* of
`Width / AspectRatio` (the floor, as the quotient is positive), with a
minimum of `1` — not the nearest-integer rounding. -/
theorem cameraHeight_spec (opts : CameraOpts) (hw : 0 < opts.Width)
    (ha : 0 < opts.Aspect) (hsome : (newCamera opts).isSome = true) :
    (newCamera opts).map Camera.height =
      some (max 1 ⌊(opts.Width : ℝ) / opts.Aspect⌋) := by
  obtain ⟨cam, hcam⟩ := Option.isSome_iff_exists.mp hsome
  have hc := newCamera_eq_some opts cam hcam
  subst hc
  rw [hcam, Option.map_some']
  congr 1
  show cameraHeight opts = _
  have hrw : resolvedWidth opts = opts.Width := by
    unfold resolvedWidth
    rw [if_neg (by omega)]
  have hra : resolvedAspect opts = opts.Aspect := by
    unfold resolvedAspect
    rw [if_neg ha.ne']
  have hx : (0 : ℝ) ≤ (opts.Width : ℝ) / opts.Aspect := by
    have hwr : (0 : ℝ) ≤ (opts.Width : ℝ) := by exact_mod_cast hw.le
    positivity
  have hgt : goTrunc ((resolvedWidth opts : ℝ) / resolvedAspect opts) =
      ⌊(opts.Width : ℝ) / opts.Aspect⌋ := by
    rw [hrw, hra]
    unfold goTrunc
    rw [if_pos hx]
  unfold cameraHeight
  rw [hgt]
  by_cases h0 : ⌊(opts.Width : ℝ) / opts.Aspect⌋ = 0
  · rw [if_pos h0, h0]
    norm_num
  · rw [if_neg h0]
    have hge : 0 ≤ ⌊(opts.Width : ℝ) / opts.Aspect⌋ := Int.floor_nonneg.mpr hx
    rw [max_eq_right (by omega)]

/-- Witness for C8: width `3`, aspect ratio `2` gives height `1`. -/
theorem cameraHeight_spec_witness :
    (newCamera ⟨3, 2, 0, 0, 0, ⟨0, 0, 0⟩, ⟨0, 0, 0⟩, ⟨0, 0, 0⟩, 0, 0⟩).map Camera.height =
      some 1 := by
  have h := cameraHeight_spec ⟨3, 2, 0, 0, 0, ⟨0, 0, 0⟩, ⟨0, 0, 0⟩, ⟨0, 0, 0⟩, 0, 0⟩
    (by norm_num) (by norm_num) (by rw [newCamera_opts8]; rfl)
  rw [h]
  norm_num [floor_three_halves]

/-- Counterexample for C8: at width `3` and aspect ratio `2` the code's
height is `1` (truncation of `1.5`), while the claim's `round(W/A)` (with
minimum `1`) is `2`. -/
theorem cameraHeight_round_counterexample :
    (newCamera ⟨3, 2, 0, 0, 0, ⟨0, 0, 0⟩, ⟨0, 0, 0⟩, ⟨0, 0, 0⟩, 0, 0⟩).map Camera.height =
      some 1 ∧
    max 1 (round ((3 : ℝ) / 2)) = 2 ∧
    (newCamera ⟨3, 2, 0, 0, 0, ⟨0, 0, 0⟩, ⟨0, 0, 0⟩, ⟨0, 0, 0⟩, 0, 0⟩).map Camera.height ≠
      some (max 1 (round ((3 : ℝ) / 2))) := by
  have h1 : (newCamera ⟨3, 2, 0, 0, 0, ⟨0, 0, 0⟩, ⟨0, 0, 0⟩, ⟨0, 0, 0⟩, 0, 0⟩).map
      Camera.height = some 1 := by
    rw [newCamera_opts8, Option.map_some', resolveCamera_opts8_height]
  have h2 : max 1 (round ((3 : ℝ) / 2)) = 2 := by
    rw [round_three_halves]
    norm_num
  refine ⟨h1, h2, ?_⟩
  rw [h1, h2]
  intro hcon
  have := (Option.some.injEq _ _).mp hcon
  norm_num at this

lemma unitVector_0_neg2_0 : Vec3.unitVector ⟨0, -2, 0⟩ = ⟨0, -1, 0⟩ := by
  have hlen : Vec3.length ⟨0, -2, 0⟩ = 2 := by
    unfold Vec3.length Vec3.lengthSquared
    norm_num [Real_sqrt_four]
  unfold Vec3.unitVector
  rw [hlen, if_neg (by norm_num)]
  unfold Vec3.divide Vec3.scale
  norm_num

/-- C7 (code bug): with `Up = (0,1,0)` parallel to
`LookAt - Position = (0,2,0)` (their cross product vanishes and both are
nonzero), `NewCamera` does not abort — the source only rejects a dot
product exactly equal to `1`, here it is `2` — and the constructed camera
has the degenerate basis vector `rightVec = (0,0,0)`. -/
theorem newCamera_parallel_up_bug :
    (Vec3.cross ⟨0, 1, 0⟩ (Vec3.subtract ⟨0, 2, 0⟩ ⟨0, 0, 0⟩) = Vec3.zero) ∧
    ((⟨0, 1, 0⟩ : Vec3) ≠ Vec3.zero) ∧
    (Vec3.subtract ⟨0, 2, 0⟩ ⟨0, 0, 0⟩ ≠ Vec3.zero) ∧
    (newCamera ⟨0, 0, 0, 0, 0, ⟨0, 0, 0⟩, ⟨0, 2, 0⟩, ⟨0, 1, 0⟩, 1, 0⟩).map Camera.rightVec =
      some Vec3.zero := by
  refine ⟨?_, ?_, ?_, ?_⟩
  · unfold Vec3.cross Vec3.subtract Vec3.zero
    norm_num
  · intro hcon
    rw [Vec3.zero] at hcon
    simp only [Vec3.mk.injEq] at hcon
    norm_num at hcon
  · intro hcon
    unfold Vec3.subtract at hcon
    rw [Vec3.zero] at hcon
    simp only [Vec3.mk.injEq] at hcon
    norm_num at hcon
  · have hlook : resolvedLookAt ⟨0, 0, 0, 0, 0, ⟨0, 0, 0⟩, ⟨0, 2, 0⟩, ⟨0, 1, 0⟩, 1, 0⟩ =
        ⟨0, 2, 0⟩ := by
      simp [resolvedLookAt, Vec3.zero, Vec3.mk.injEq]
    have hup : resolvedUp ⟨0, 0, 0, 0, 0, ⟨0, 0, 0⟩, ⟨0, 2, 0⟩, ⟨0, 1, 0⟩, 1, 0⟩ =
        ⟨0, 1, 0⟩ := by
      simp [resolvedUp, Vec3.zero, Vec3.mk.injEq]
    have hcam : newCamera ⟨0, 0, 0, 0, 0, ⟨0, 0, 0⟩, ⟨0, 2, 0⟩, ⟨0, 1, 0⟩, 1, 0⟩ =
        some (resolveCamera ⟨0, 0, 0, 0, 0, ⟨0, 0, 0⟩, ⟨0, 2, 0⟩, ⟨0, 1, 0⟩, 1, 0⟩) := by
      unfold newCamera
      norm_num [hlook, hup, Vec3.dot, Vec3.subtract, Vec3.mk.injEq]
    rw [hcam, Option.map_some']
    have hright : (resolveCamera ⟨0, 0, 0, 0, 0, ⟨0, 0, 0⟩, ⟨0, 2, 0⟩, ⟨0, 1, 0⟩, 1, 0⟩).rightVec
        = Vec3.zero := by
      show Vec3.cross (resolvedUp _) (Vec3.unitVector (Vec3.subtract _ (resolvedLookAt _)))
          = Vec3.zero
      rw [hlook, hup]
      have hsub : Vec3.subtract ⟨0, 0, 0⟩ ⟨0, 2, 0⟩ = ⟨0, -2, 0⟩ := by
        unfold Vec3.subtract
        norm_num
      rw [hsub, unitVector_0_neg2_0]
      unfold Vec3.cross Vec3.zero
      norm_num
    rw [hright]
